import Mathlib

/-!
Shallow embedding of the civic-complaint analysis pipeline:
the Validator (ingestion agent), the Fingerprint Generator (understanding
agent), the Clustering Engine (discovery agent), and the Priority Scorer
(priority agent), together with theorems settling the frozen claims about
them.

Numeric conventions: JavaScript `number` arithmetic is modelled exactly over
`ℚ` (and over `ℝ` where the source computes an irrational value such as
`Math.log10` or `Math.sqrt`); 32-bit coercions (`hash & hash`, `<< 5`) are
modelled with explicit wrap-around on `ℤ`.  Strings are modelled through
their character lists; `String.prototype.toLowerCase` is modelled by the
ASCII `Char.toLower`, and `String.prototype.includes` by a contiguous
sublist test.
-/

/-- JS `haystack.includes(needle)`: `needle` occurs as a contiguous segment
of `haystack`. -/
def containsSeg (needle hay : List Char) : Bool :=
  match hay with
  | [] => needle.isEmpty
  | _ :: t => needle.isPrefixOf hay || containsSeg needle t

/-- JS `s.includes(pat)` on strings. -/
def strIncludes (s pat : String) : Bool :=
  containsSeg pat.data s.data

namespace Ingestion

/-- Code points matched by the JS regex class `\s` (used by `trim()` and by
`replace(/\s+/g, ' ')`). -/
def jsWsCodes : List Nat :=
  [9, 10, 11, 12, 13, 32, 160, 5760, 8192, 8193, 8194, 8195, 8196, 8197,
   8198, 8199, 8200, 8201, 8202, 8232, 8233, 8239, 8287, 12288, 65279]

/-- Is `c` a JS whitespace character? -/
def jsWs (c : Char) : Bool := jsWsCodes.contains c.toNat

/-- JS `text.trim()`: strip leading and trailing whitespace. -/
def trimJs (l : List Char) : List Char :=
  ((l.dropWhile jsWs).reverse.dropWhile jsWs).reverse

/-- Collapse each run of consecutive spaces to a single space (the second
half of `replace(/\s+/g, ' ')`, after every whitespace character has been
replaced by a space). -/
def squeeze : List Char → List Char
  | [] => []
  | [c] => [c]
  | a :: b :: r => if a = ' ' && b = ' ' then squeeze (b :: r) else a :: squeeze (b :: r)

/-- JS `replace(/\s+/g, ' ')`: every maximal run of whitespace becomes one
space. -/
def collapseWs (l : List Char) : List Char :=
  squeeze (l.map (fun c => if jsWs c then ' ' else c))

/-- JS `s.split(' ')`: split at every single space; `"".split(' ') = [""]`. -/
def splitSp : List Char → List (List Char)
  | [] => [[]]
  | c :: cs =>
      if c = ' ' then [] :: splitSp cs
      else
        match splitSp cs with
        | [] => [[c]]
        | t :: ts => (c :: t) :: ts

/-- The fixed stop-word list of the ingestion agent. -/
def stopWords : List (List Char) :=
  (["the", "is", "at", "which", "on", "a", "an", "and", "or", "but",
    "in", "with", "to", "for", "of", "as", "by", "this", "that"]).map String.data

/-- `text.trim().toLowerCase()` followed by `replace(/\s+/g, ' ')`. -/
def normalizeChars (s : String) : List Char :=
  collapseWs ((trimJs s.data).map Char.toLower)

/-- The token-filter predicate: `word.length > 2 && !stopWords.has(word)`. -/
def keepToken (w : List Char) : Bool :=
  2 < w.length && !(stopWords.contains w)

/-- The Validator's surviving tokens (`words` in the source). -/
def cleanedTokens (s : String) : List (List Char) :=
  (splitSp (normalizeChars s)).filter keepToken

/-- JS `words.join(' ')`. -/
def joinTokens : List (List Char) → List Char
  | [] => []
  | [t] => t
  | t :: ts => t ++ ' ' :: joinTokens ts

/-- The Validator's `cleaned_text` output. -/
def cleanedText (s : String) : String :=
  String.mk (joinTokens (cleanedTokens s))

/-- JS `/^(.)\1{5,}/.test(text)`: the text starts with one character (not a
line terminator, which `.` cannot match) repeated at least 6 times. -/
def spamHead (s : String) : Bool :=
  match s.data with
  | [] => false
  | c :: rest =>
      !(['\n', '\r', Char.ofNat 8232, Char.ofNat 8233].contains c)
        && (rest.take 5).length = 5 && (rest.take 5).all (· = c)

/-- The validity decision of the ingestion agent: `(is_valid, reason)`,
checks evaluated in source order, first failure wins. -/
def validateText (text : String) : Bool × String :=
  if text.length < 10 then (false, "Text too short (minimum 10 characters)")
  else if (cleanedTokens text).length < 3 then (false, "Not enough meaningful words")
  else if spamHead text then (false, "Contains repeated characters (spam detected)")
  else (true, "")

/-- The input text of Scenario C. -/
def scenarioCText : String := "Water is leaking badly near my house every single day"

end Ingestion

namespace Understanding

/-- The 10 topic-category keyword sets of `generateEmbedding`. -/
def problemCategories : List (List String) :=
  [["water", "tap", "supply", "pipe", "leak", "drinking", "dry", "shortage"],
   ["road", "street", "pothole", "crack", "damage", "broken", "repair", "pavement"],
   ["garbage", "trash", "waste", "dump", "smell", "dirty", "cleanliness", "bin"],
   ["electric", "power", "light", "street", "lamp", "dark", "outage", "wire"],
   ["drain", "sewage", "overflow", "block", "clog", "flood", "stagnant", "smell"],
   ["noise", "loud", "sound", "construction", "pollution", "disturbance"],
   ["health", "hospital", "clinic", "medicine", "doctor", "medical", "emergency"],
   ["safety", "crime", "theft", "danger", "security", "police", "unsafe"],
   ["park", "garden", "tree", "green", "playground", "maintenance"],
   ["transport", "bus", "traffic", "signal", "vehicle", "parking", "congestion"]]

/-- The 3 urgency-tier keyword sets of `generateEmbedding`. -/
def severityTerms : List (List String) :=
  [["urgent", "emergency", "critical", "immediate", "severe", "dangerous"],
   ["important", "serious", "concern", "problem", "issue", "need"],
   ["help", "please", "request", "require", "necessary"]]

/-- `text.toLowerCase().split(' ')` (the `words` array of the source). -/
def wordsOf (text : String) : List String :=
  (Ingestion.splitSp (text.data.map Char.toLower)).map String.mk

/-- One topic category's score: `+1` per keyword in the word set, `+0.5` per
(word, keyword) pair with `word.includes(keyword) || keyword.includes(word)`. -/
def categoryScoreOf (words : List String) (category : List String) : ℚ :=
  (category.map (fun keyword =>
    (if words.contains keyword then (1 : ℚ) else 0) +
      ((words.filter (fun w => strIncludes w keyword || strIncludes keyword w)).length : ℚ) * (1 / 2))).sum

/-- One urgency tier's score: `+1` per keyword in the word set (no substring
component in the source). -/
def tierScoreOf (words : List String) (tier : List String) : ℚ :=
  (tier.map (fun keyword => if words.contains keyword then (1 : ℚ) else 0)).sum

/-- The 384-vector after the category bands (cells 0-299, 30 per category)
and the urgency bands (cells 300-359, 20 per tier) have been written, each
band filled with its category's/tier's normalized score. -/
def baseEmbedding (text : String) : List ℚ :=
  let words := wordsOf text
  let catVals := problemCategories.map (fun cat => categoryScoreOf words cat / (cat.length + 1))
  let sevVals := severityTerms.map (fun tier => tierScoreOf words tier / (tier.length + 1))
  (List.range 384).map (fun i =>
    if i < 300 then catVals.getD (i / 30) 0
    else if i < 360 then sevVals.getD ((i - 300) / 20) 0
    else 0)

/-- Signed 32-bit wrap-around (the effect of JS `hash & hash` / `<< 5`). -/
def toInt32 (n : ℤ) : ℤ := (n + 2 ^ 31) % 2 ^ 32 - 2 ^ 31

/-- The loop body of `simpleHash`: `hash = ((hash << 5) - hash) + charCode;
hash = hash & hash`. -/
def simpleHashAux : List Char → ℤ → ℤ
  | [], h => h
  | c :: cs, h => simpleHashAux cs (toInt32 (toInt32 (h * 32) - h + c.toNat))

/-- `simpleHash(str)`: the 32-bit string hash, made non-negative by
`Math.abs`. -/
def simpleHash (s : String) : ℤ := |simpleHashAux s.data 0|

/-- The hashed bag-of-words pass: for every word longer than 3 characters,
add `0.1` at position `hash % 384`. -/
def hashStage (text : String) (v : List ℚ) : List ℚ :=
  (wordsOf text).foldl (fun acc w =>
    if 3 < w.length then
      let pos := (simpleHash w % 384).toNat
      acc.set pos (acc.getD pos 0 + 1 / 10)
    else acc) v

/-- The full fingerprint vector before L2 normalization. -/
def rawEmbedding (text : String) : List ℚ := hashStage text (baseEmbedding text)

/-- `generateEmbedding`: L2-normalize the raw vector unless its magnitude is
zero (`if (magnitude > 0)` in the source). -/
noncomputable def generateEmbedding (text : String) : List ℝ :=
  let v := rawEmbedding text
  let magSq : ℚ := (v.map (fun x => x * x)).sum
  if magSq = 0 then v.map (fun q : ℚ => (q : ℝ))
  else v.map (fun q : ℚ => (q : ℝ) / Real.sqrt (magSq : ℝ))

/-- Euclidean norm of a real vector. -/
noncomputable def l2norm (v : List ℝ) : ℝ :=
  Real.sqrt ((v.map (fun x => x * x)).sum)

/-- The urgency-tier score as claim C6 describes it (the topic-category
formula applied to an urgency tier, substring component included); named
`Claimed` because it follows the claim's words, to be compared with
`tierScoreOf`, which follows the source. -/
def tierScoreClaimed (words : List String) (tier : List String) : ℚ :=
  (tier.map (fun keyword =>
    (if words.contains keyword then (1 : ℚ) else 0) +
      ((words.filter (fun w => strIncludes w keyword || strIncludes keyword w)).length : ℚ) * (1 / 2))).sum

end Understanding

namespace Discovery

/-- A complaint row as fetched by the discovery agent. -/
structure Complaint where
  id : String
  cleaned_text : String
  embedding : List ℚ
  location : String
deriving DecidableEq, Inhabited

/-- A cluster of the k-means loop. -/
structure Cluster where
  id : ℕ
  complaints : List Complaint
  centroid : List ℚ
  title : String
deriving DecidableEq, Inhabited

/-- `Σ aᵢ·bᵢ` (the `dotProduct` accumulator of `cosineSimilarity`). -/
def dotProduct (a b : List ℚ) : ℚ := (List.zipWith (· * ·) a b).sum

/-- `Σ aᵢ²` (the squared magnitude accumulator of `cosineSimilarity`). -/
def sqMagnitude (a : List ℚ) : ℚ := (a.map (fun x => x * x)).sum

/-- A cosine-similarity value represented exactly: the pair `(d, m)` denotes
the real number `d / √m` (with `m > 0`); the source's zero-magnitude guard
returns `(0, 1)`, i.e. the value `0`. -/
def SimVal : Type := ℚ × ℚ

/-- `cosineSimilarity(a, b)` as an exact `SimVal`. -/
def cosineSim (a b : List ℚ) : SimVal :=
  if sqMagnitude a = 0 ∨ sqMagnitude b = 0 then ((0 : ℚ), (1 : ℚ))
  else (dotProduct a b, sqMagnitude a * sqMagnitude b)

/-- Exact comparison `y.val < x.val` of two cosine-similarity values,
by sign analysis and squaring (`d₁/√m₁ > d₂/√m₂`). -/
def simGt (x y : SimVal) : Bool :=
  if 0 ≤ x.1 then
    (if 0 ≤ y.1 then decide (y.1 ^ 2 * x.2 < x.1 ^ 2 * y.2) else true)
  else
    (if 0 ≤ y.1 then false else decide (x.1 ^ 2 * y.2 < y.1 ^ 2 * x.2))

/-- Exact comparison `x.val < q` of a cosine-similarity value against a
rational threshold. -/
def simLtQ (x : SimVal) (q : ℚ) : Bool :=
  if 0 ≤ x.1 then
    (if 0 ≤ q then decide (x.1 ^ 2 < q ^ 2 * x.2) else false)
  else
    (if 0 ≤ q then true else decide (q ^ 2 * x.2 < x.1 ^ 2))

/-- The inner assignment loop: index of the centroid with the highest cosine
similarity, first strict improvement wins (`similarity > bestSimilarity`,
starting from `bestSimilarity = -1`, `bestCluster = 0`). -/
def bestClusterAux (e : List ℚ) : List (List ℚ) → ℕ → ℕ × SimVal → ℕ × SimVal
  | [], _, best => best
  | c :: cs, i, best =>
      bestClusterAux e cs (i + 1)
        (if simGt (cosineSim e c) best.2 then (i, cosineSim e c) else best)

/-- `bestCluster` for one complaint embedding over the current centroids. -/
def bestClusterIdx (cents : List (List ℚ)) (e : List ℚ) : ℕ :=
  (bestClusterAux e cents 0 (0, ((-1 : ℚ), (1 : ℚ)))).1

/-- One assignment phase: clear every cluster's member list and push each
complaint onto its best cluster (pushing in input order is rendered as a
positional filter). -/
def assignStep (complaints : List Complaint) (clusters : List Cluster) : List Cluster :=
  let cents := clusters.map (fun cl => cl.centroid)
  (List.range clusters.length).map (fun i =>
    let cl := clusters.getD i default
    { cl with complaints := complaints.filter (fun c => bestClusterIdx cents c.embedding = i) })

/-- The element-wise arithmetic mean of the members' embeddings (the new
centroid; not renormalized). -/
def meanCentroid (dim : ℕ) (members : List Complaint) : List ℚ :=
  (List.range dim).map (fun j =>
    (members.map (fun c => c.embedding.getD j 0)).sum / members.length)

/-- One update phase: recompute each non-empty cluster's centroid, flagging
it changed when the cosine similarity between old and new centroid is below
0.999; returns the updated clusters and whether any changed. -/
def updateStep (dim : ℕ) (clusters : List Cluster) : List Cluster × Bool :=
  let pairs := clusters.map (fun cl =>
    if cl.complaints.length = 0 then (cl, false)
    else
      let nc := meanCentroid dim cl.complaints
      if simLtQ (cosineSim cl.centroid nc) (999 / 1000) then ({ cl with centroid := nc }, true)
      else (cl, false))
  (pairs.map Prod.fst, pairs.any Prod.snd)

/-- The bounded k-means loop: up to `fuel` rounds of assign-then-update,
stopping early once no cluster changed. -/
def kmeansIterate (complaints : List Complaint) (dim : ℕ) : ℕ → List Cluster → List Cluster
  | 0, cls => cls
  | fuel + 1, cls =>
      let assigned := assignStep complaints cls
      let stepped := updateStep dim assigned
      if stepped.2 then kmeansIterate complaints dim fuel stepped.1 else stepped.1

/-- The initial clusters: `min k n` centroids seeded from the complaints at
the (random) indices `pick 0, pick 1, …`. -/
def kmeansInit (complaints : List Complaint) (k : ℕ) (pick : ℕ → ℕ) : List Cluster :=
  (List.range (min k complaints.length)).map (fun i =>
    { id := i, complaints := [], centroid := (complaints.getD (pick i) default).embedding,
      title := "" })

/-- `kMeansClustering(complaints, k)`: `none` models the runtime error the
source throws when `k ≤ 0` with a non-empty input (it pushes onto
`clusters[0]` of an empty cluster array); otherwise 20 rounds of k-means
followed by dropping empty clusters. -/
def kMeansClustering (complaints : List Complaint) (k : ℕ) (pick : ℕ → ℕ) :
    Option (List Cluster) :=
  if complaints.isEmpty then some []
  else if min k complaints.length = 0 then none
  else
    let dim := (complaints.headD default).embedding.length
    some ((kmeansIterate complaints dim 20 (kmeansInit complaints k pick)).filter
      (fun c => 0 < c.complaints.length))

/-- `numClusters` as computed by the discovery handler:
`Math.min(Math.max(3, Math.ceil(n / 3)), 8)`. -/
def numClusters (n : ℕ) : ℕ := min (max 3 ⌈(n : ℚ) / 3⌉₊) 8

/-- The cluster count actually used: the handler's `numClusters` further
capped at `n` by `k = Math.min(k, complaints.length)` inside
`kMeansClustering`. -/
def effectiveK (n : ℕ) : ℕ := min (numClusters n) n

/-- A cluster list is an assignment state: for some centroid list, cluster
`i`'s member list is exactly the complaints whose best cluster is `i`. -/
def IsAssignment (complaints : List Complaint) (cls : List Cluster) : Prop :=
  ∃ cents : List (List ℚ), cents.length = cls.length ∧
    ∀ (i : ℕ) (hi : i < cls.length),
      cls[i].complaints = complaints.filter (fun c => bestClusterIdx cents c.embedding = i)

end Discovery

namespace Priority

/-- A complaint row as consumed by the priority agent (`created_at` is the
JS epoch-milliseconds timestamp). -/
structure PComplaint where
  cleaned_text : String
  created_at : ℚ
  location : String
deriving DecidableEq, Inhabited

/-- The urgent-tier keyword list of `calculateSeverityScore`. -/
def urgentKeywords : List String :=
  ["urgent", "emergency", "critical", "immediate", "severe", "dangerous",
   "unsafe", "health", "hospital", "children", "death", "injury"]

/-- The important-tier keyword list of `calculateSeverityScore`. -/
def importantKeywords : List String :=
  ["important", "serious", "concern", "problem", "broken", "damage",
   "leak", "overflow", "stuck"]

/-- `calculateSeverityScore`: `+3` per urgent keyword occurring in the
lower-cased cleaned text, `+1` per important keyword, summed over all
complaints, averaged, capped at 10. -/
def calculateSeverityScore (complaints : List PComplaint) : ℚ :=
  let total := (complaints.map (fun c =>
    let text := String.mk (c.cleaned_text.data.map Char.toLower)
    ((urgentKeywords.filter (fun k => strIncludes text k)).length : ℚ) * 3 +
      ((importantKeywords.filter (fun k => strIncludes text k)).length : ℚ))).sum
  min (total / complaints.length) 10

/-- One day in milliseconds. -/
def oneDayMs : ℚ := 24 * 60 * 60 * 1000

/-- One week in milliseconds. -/
def oneWeekMs : ℚ := 7 * oneDayMs

/-- The per-complaint recency weight: age under a day → 3, under a week →
1.5, otherwise 0.5. -/
def recencyWeight (now : ℚ) (c : PComplaint) : ℚ :=
  let age := now - c.created_at
  if age < oneDayMs then 3 else if age < oneWeekMs then 3 / 2 else 1 / 2

/-- `calculateRecencyScore`: average recency weight. -/
def calculateRecencyScore (now : ℚ) (complaints : List PComplaint) : ℚ :=
  (complaints.map (recencyWeight now)).sum / complaints.length

/-- `Math.max(...Object.values(locationMap), 1)`: the largest number of
complaints sharing one (non-empty) location, floored at 1. -/
def maxLocationDensity (complaints : List PComplaint) : ℕ :=
  let locs := (complaints.map (fun c => c.location)).filter (fun l => l ≠ "")
  (locs.map (fun l => locs.count l)).foldr max 1

/-- `calculateLocationDensity`: `log10(maxDensity + 1) * 3`. -/
noncomputable def calculateLocationDensity (complaints : List PComplaint) : ℝ :=
  Real.logb 10 ((maxLocationDensity complaints : ℝ) + 1) * 3

/-- The factor record handed to `calculatePriorityScore`. -/
structure PriorityFactors where
  complaint_count : ℝ
  severity_score : ℝ
  recency_score : ℝ
  location_density : ℝ

/-- JS `Math.round`: round half away from zero upward, i.e. `⌊x + 0.5⌋`. -/
noncomputable def jsRound (x : ℝ) : ℤ := ⌊x + 1 / 2⌋

/-- `calculatePriorityScore`: the weighted composite, capped at 100 and
rounded. -/
noncomputable def calculatePriorityScore (f : PriorityFactors) : ℤ :=
  let normalizedCount := min (f.complaint_count / 10) 1 * 100
  let score := normalizedCount * (4 / 10) + f.severity_score * 10 * (35 / 100)
    + f.recency_score * 10 * (15 / 100) + f.location_density * 10 * (1 / 10)
  jsRound (min score 100)

/-- The factors as the priority handler assembles them for one problem's
linked complaints. -/
noncomputable def priorityFactorsOf (now : ℚ) (complaints : List PComplaint) : PriorityFactors :=
  { complaint_count := (complaints.length : ℝ)
    severity_score := (calculateSeverityScore complaints : ℝ)
    recency_score := (calculateRecencyScore now complaints : ℝ)
    location_density := calculateLocationDensity complaints }

/-- `complaints.sort((a, b) => a.created_at - b.created_at)` (stable,
ascending by creation time). -/
def sortByCreated (complaints : List PComplaint) : List PComplaint :=
  complaints.mergeSort (fun a b => decide (a.created_at ≤ b.created_at))

/-- The average creation timestamp of a half. -/
def avgCreated (complaints : List PComplaint) : ℚ :=
  (complaints.map (fun c => c.created_at)).sum / complaints.length

/-- `determineTrend`: fewer than 2 complaints → stable; otherwise split the
time-sorted list at `floor(n/2)` and compare growth ratio and gap between
the halves' average timestamps. -/
def determineTrend (now : ℚ) (complaints : List PComplaint) : String :=
  if complaints.length < 2 then "stable"
  else
    let sorted := sortByCreated complaints
    let halfPoint := sorted.length / 2
    let firstHalf := sorted.take halfPoint
    let secondHalf := sorted.drop halfPoint
    let timeDiff := avgCreated secondHalf - avgCreated firstHalf
    let expectedDiff := (now - (sorted.headD default).created_at) / 2
    let growthRate := (secondHalf.length : ℚ) / (firstHalf.length : ℚ)
    if growthRate > 13 / 10 ∧ timeDiff < expectedDiff * (7 / 10) then "rising"
    else if growthRate < 7 / 10 then "falling"
    else "stable"

end Priority

namespace Discovery

/-- First-occurrence deduplication (JS object keys keep first-insertion
order). -/
def firstDedup (l : List (List Char)) : List (List Char) :=
  l.foldl (fun acc w => if acc.contains w then acc else acc ++ [w]) []

/-- JS `word.charAt(0).toUpperCase() + word.slice(1)`. -/
def capitalizeWord : List Char → List Char
  | [] => []
  | c :: r => Char.toUpper c :: r

/-- `generateClusterTitle`: top-3 most frequent tokens (length > 3) across
the members' cleaned texts, title-cased, joined with " & ", suffixed
" Issues"; "General Issues" when no token qualifies. -/
def generateClusterTitle (complaints : List Complaint) : String :=
  let ws := ((complaints.map (fun c => Ingestion.splitSp c.cleaned_text.data)).flatten).filter
    (fun w => 3 < w.length)
  let sortedWords := ((firstDedup ws).mergeSort (fun a b => decide (ws.count b ≤ ws.count a))).take 3
  if sortedWords.isEmpty then ("General Issues")
  else String.mk (List.intercalate ([' ', '&', ' ']) (sortedWords.map capitalizeWord)
    ++ (" Issues").data)

/-- A persisted `problems` row. -/
structure ProblemRow where
  id : String
  title : String
  cluster_id : ℕ
  complaint_count : ℕ
  priority_score : ℤ
  trend : String
  keywords : List String
deriving DecidableEq

/-- A persisted `complaint_problems` row. -/
structure LinkRow where
  complaint_id : String
  problem_id : String
  confidence : ℚ
deriving DecidableEq

/-- The slice of the store the discovery handler mutates: problem rows, link
rows, and each complaint's status keyed by id. -/
structure DBState where
  problems : List ProblemRow
  links : List LinkRow
  complaints : List (String × String)
deriving DecidableEq

/-- The sentinel in `.neq('id', '00000000-…')` / `.neq('complaint_id', …)`. -/
def zeroUUID : String := "00000000-0000-0000-0000-000000000000"

/-- `supabase.from('problems').delete().neq('id', zeroUUID)`: removes every
row whose id differs from the sentinel (keeping a row only if its id equals
it). -/
def deleteProblems (s : DBState) : DBState :=
  { s with problems := s.problems.filter (fun p => p.id = zeroUUID) }

/-- `supabase.from('complaint_problems').delete().neq('complaint_id',
zeroUUID)`. -/
def deleteLinks (s : DBState) : DBState :=
  { s with links := s.links.filter (fun l => l.complaint_id = zeroUUID) }

/-- The problem row inserted for one cluster (`priority_score: 0`,
`trend: 'stable'`, `keywords: []`). -/
def mkProblemRow (newId : String) (cl : Cluster) : ProblemRow :=
  { id := newId, title := generateClusterTitle cl.complaints, cluster_id := cl.id,
    complaint_count := cl.complaints.length, priority_score := 0, trend := "stable",
    keywords := [] }

/-- The link rows inserted for one cluster (fixed confidence 0.8). -/
def mkLinkRows (problemId : String) (cl : Cluster) : List LinkRow :=
  cl.complaints.map (fun c =>
    { complaint_id := c.id, problem_id := problemId, confidence := 4 / 5 })

/-- The per-cluster body of the handler's insert loop: insert the problem
row, insert one link per member, set each member's status to `analyzed`. -/
def insertClusterStep (newId : String) (cl : Cluster) (s : DBState) : DBState :=
  { problems := s.problems ++ [mkProblemRow newId cl]
    links := s.links ++ mkLinkRows newId cl
    complaints := s.complaints.map (fun p =>
      if cl.complaints.any (fun c => c.id = p.1) then (p.1, "analyzed") else p) }

/-- The write phase of one discovery (re-analysis) run: delete all problem
rows and all link rows (via the `.neq` sentinel filters), then insert the
new cluster set; `newIds i` is the id the store generates for the `i`-th
inserted problem. -/
def discoveryRun (s : DBState) (clusters : List Cluster) (newIds : ℕ → String) : DBState :=
  (clusters.enum).foldl (fun st ic => insertClusterStep (newIds ic.1) ic.2 st)
    (deleteLinks (deleteProblems s))

end Discovery

/-! ### Theorems -/

/-- C7: for every non-empty complaint list of length n, the discovery agent
runs k-means with exactly `min(min(max(3, ceil(n/3)), 8), n)` initial
clusters: the handler picks `k = clamp(ceil(n/3), 3, 8)` and
`kMeansClustering` further caps it at `n`. -/
theorem c7_k_selection (complaints : List Discovery.Complaint) (pick : ℕ → ℕ)
    (h : 1 ≤ complaints.length) :
    (Discovery.kmeansInit complaints (Discovery.numClusters complaints.length) pick).length
      = min (min (max 3 ⌈(complaints.length : ℚ) / 3⌉₊) 8) complaints.length := by
  simp [Discovery.kmeansInit, Discovery.numClusters]

/-- Witness for C7 at a concrete one-element complaint list. -/
theorem c7_k_selection_witness :
    1 ≤ ([⟨"c1", "water leak", [1], "loc"⟩] : List Discovery.Complaint).length
      ∧ (Discovery.kmeansInit ([⟨"c1", "water leak", [1], "loc"⟩] : List Discovery.Complaint)
            (Discovery.numClusters 1) (fun _ => 0)).length
          = min (min (max 3 ⌈(1 : ℚ) / 3⌉₊) 8) 1 :=
  ⟨by decide, c7_k_selection ([⟨"c1", "water leak", [1], "loc"⟩]) (fun _ => 0) (by decide)⟩

/-- C8 counterexample: on Scenario C's text the Validator accepts and keeps
"water", "leaking", "badly", "house" and drops "is" and "my", but the claim
is false because "near" (length 4, not a stop-word) is also KEPT, while the
claim asserts it is excluded. -/
theorem c8_counterexample :
    ¬ ((Ingestion.validateText Ingestion.scenarioCText).1 = true
        ∧ ("water").data ∈ Ingestion.cleanedTokens Ingestion.scenarioCText
        ∧ ("leaking").data ∈ Ingestion.cleanedTokens Ingestion.scenarioCText
        ∧ ("badly").data ∈ Ingestion.cleanedTokens Ingestion.scenarioCText
        ∧ ("house").data ∈ Ingestion.cleanedTokens Ingestion.scenarioCText
        ∧ ("is").data ∉ Ingestion.cleanedTokens Ingestion.scenarioCText
        ∧ ("near").data ∉ Ingestion.cleanedTokens Ingestion.scenarioCText
        ∧ ("my").data ∉ Ingestion.cleanedTokens Ingestion.scenarioCText) := by
  decide

/-- C8 (amended): Scenario C's text is accepted with cleaned tokens
containing "water", "leaking", "badly", "house" — and also "near" — while
"is" and "my" are excluded. -/
theorem c8_scenarioC :
    (Ingestion.validateText Ingestion.scenarioCText).1 = true
      ∧ ("water").data ∈ Ingestion.cleanedTokens Ingestion.scenarioCText
      ∧ ("leaking").data ∈ Ingestion.cleanedTokens Ingestion.scenarioCText
      ∧ ("badly").data ∈ Ingestion.cleanedTokens Ingestion.scenarioCText
      ∧ ("house").data ∈ Ingestion.cleanedTokens Ingestion.scenarioCText
      ∧ ("near").data ∈ Ingestion.cleanedTokens Ingestion.scenarioCText
      ∧ ("is").data ∉ Ingestion.cleanedTokens Ingestion.scenarioCText
      ∧ ("my").data ∉ Ingestion.cleanedTokens Ingestion.scenarioCText := by
  decide

namespace Priority

/-- The weighted composite stays in `[0, 100]` for any non-negative factor
record. -/
theorem priorityScore_mem_Icc (f : PriorityFactors)
    (h1 : 0 ≤ f.complaint_count) (h2 : 0 ≤ f.severity_score)
    (h3 : 0 ≤ f.recency_score) (h4 : 0 ≤ f.location_density) :
    calculatePriorityScore f ∈ Set.Icc (0 : ℤ) 100 := by
  unfold calculatePriorityScore jsRound
  dsimp only
  have hnc : 0 ≤ min (f.complaint_count / 10) 1 * 100 :=
    mul_nonneg (le_min (div_nonneg h1 (by norm_num)) zero_le_one) (by norm_num)
  have hs : 0 ≤ min (f.complaint_count / 10) 1 * 100 * (4 / 10)
      + f.severity_score * 10 * (35 / 100) + f.recency_score * 10 * (15 / 100)
      + f.location_density * 10 * (1 / 10) := by
    have := mul_nonneg (mul_nonneg h2 (by norm_num : (0:ℝ) ≤ 10)) (by norm_num : (0:ℝ) ≤ 35 / 100)
    have := mul_nonneg (mul_nonneg h3 (by norm_num : (0:ℝ) ≤ 10)) (by norm_num : (0:ℝ) ≤ 15 / 100)
    have := mul_nonneg (mul_nonneg h4 (by norm_num : (0:ℝ) ≤ 10)) (by norm_num : (0:ℝ) ≤ 1 / 10)
    have := mul_nonneg hnc (by norm_num : (0:ℝ) ≤ 4 / 10)
    linarith
  rw [Set.mem_Icc]
  constructor
  · refine Int.floor_nonneg.mpr ?_
    have : (0 : ℝ) ≤ min (min (f.complaint_count / 10) 1 * 100 * (4 / 10)
        + f.severity_score * 10 * (35 / 100) + f.recency_score * 10 * (15 / 100)
        + f.location_density * 10 * (1 / 10)) 100 := le_min hs (by norm_num)
    linarith
  · have hle : min (min (f.complaint_count / 10) 1 * 100 * (4 / 10)
        + f.severity_score * 10 * (35 / 100) + f.recency_score * 10 * (15 / 100)
        + f.location_density * 10 * (1 / 10)) 100 ≤ 100 := min_le_right _ _
    have h2' : ⌊min (min (f.complaint_count / 10) 1 * 100 * (4 / 10)
        + f.severity_score * 10 * (35 / 100) + f.recency_score * 10 * (15 / 100)
        + f.location_density * 10 * (1 / 10)) 100 + 1 / 2⌋ ≤ ⌊(100 : ℝ) + 1 / 2⌋ :=
      Int.floor_le_floor (by linarith)
    have h3' : ⌊(100 : ℝ) + 1 / 2⌋ = 100 := by
      rw [Int.floor_eq_iff]
      constructor <;> norm_num
    rw [h3'] at h2'
    exact h2'

end Priority

/-- C3: for every list of linked complaints (and any evaluation time), the
composite priority score `calculatePriorityScore(priorityFactorsOf …)` is an
integer in the closed interval `[0, 100]`. -/
theorem c3_priority_score_bounded (now : ℚ) (complaints : List Priority.PComplaint) :
    Priority.calculatePriorityScore (Priority.priorityFactorsOf now complaints)
      ∈ Set.Icc (0 : ℤ) 100 := by
  apply Priority.priorityScore_mem_Icc
  · exact_mod_cast Nat.cast_nonneg complaints.length
  · show (0 : ℝ) ≤ ((Priority.calculateSeverityScore complaints : ℚ) : ℝ)
    have : (0 : ℚ) ≤ Priority.calculateSeverityScore complaints := by
      unfold Priority.calculateSeverityScore
      refine le_min ?_ (by norm_num)
      refine div_nonneg ?_ (by positivity)
      refine List.sum_nonneg ?_
      intro x hx
      simp only [List.mem_map] at hx
      obtain ⟨c, _, rfl⟩ := hx
      positivity
    exact_mod_cast this
  · show (0 : ℝ) ≤ ((Priority.calculateRecencyScore now complaints : ℚ) : ℝ)
    have : (0 : ℚ) ≤ Priority.calculateRecencyScore now complaints := by
      unfold Priority.calculateRecencyScore
      refine div_nonneg ?_ (by positivity)
      refine List.sum_nonneg ?_
      intro x hx
      simp only [List.mem_map] at hx
      obtain ⟨c, _, rfl⟩ := hx
      unfold Priority.recencyWeight
      dsimp only
      split <;> norm_num
      split <;> norm_num
    exact_mod_cast this
  · show (0 : ℝ) ≤ Priority.calculateLocationDensity complaints
    unfold Priority.calculateLocationDensity
    refine mul_nonneg (Real.logb_nonneg (by norm_num) ?_) (by norm_num)
    have : (0 : ℝ) ≤ (Priority.maxLocationDensity complaints : ℝ) := Nat.cast_nonneg _
    linarith

/-- C4: the trend classifier returns "stable" for fewer than 2 complaints;
otherwise, over the time-sorted list split at its midpoint, it returns
"rising" exactly when the growth ratio exceeds 1.3 and the gap between the
halves' average timestamps is below 0.7 × half the elapsed time since the
earliest complaint, "falling" exactly when the growth ratio is below 0.7,
and "stable" otherwise. -/
theorem c4_determineTrend_classification (now : ℚ) (complaints : List Priority.PComplaint) :
    (complaints.length < 2 → Priority.determineTrend now complaints = "stable")
    ∧ (2 ≤ complaints.length →
        (let sorted := Priority.sortByCreated complaints
         let halfPoint := sorted.length / 2
         let firstHalf := sorted.take halfPoint
         let secondHalf := sorted.drop halfPoint
         let timeDiff := Priority.avgCreated secondHalf - Priority.avgCreated firstHalf
         let expectedDiff := (now - (sorted.headD default).created_at) / 2
         let growthRate := (secondHalf.length : ℚ) / (firstHalf.length : ℚ)
         (Priority.determineTrend now complaints = "rising"
            ↔ growthRate > 13 / 10 ∧ timeDiff < expectedDiff * (7 / 10))
         ∧ (Priority.determineTrend now complaints = "falling" ↔ growthRate < 7 / 10)
         ∧ (Priority.determineTrend now complaints = "stable"
            ↔ ¬(growthRate > 13 / 10 ∧ timeDiff < expectedDiff * (7 / 10))
              ∧ ¬(growthRate < 7 / 10)))) := by
  constructor
  · intro h
    unfold Priority.determineTrend
    rw [if_pos h]
  · intro h
    have h2 : ¬ (complaints.length < 2) := by omega
    unfold Priority.determineTrend
    rw [if_neg h2]
    dsimp only
    split_ifs with hc1 hc2
    · refine ⟨iff_of_true rfl hc1, ?_, ?_⟩
      · refine iff_of_false (by decide) ?_
        have h13 := hc1.1
        intro hlt
        linarith
      · exact iff_of_false (by decide) (fun hr => hr.1 hc1)
    · refine ⟨?_, iff_of_true rfl hc2, ?_⟩
      · exact iff_of_false (by decide) hc1
      · exact iff_of_false (by decide) (fun hr => hr.2 hc2)
    · refine ⟨?_, ?_, iff_of_true rfl ⟨hc1, hc2⟩⟩
      · exact iff_of_false (by decide) hc1
      · exact iff_of_false (by decide) hc2

/-- Witness for C4 at a concrete one-element list (the trend floor of
Scenario D: a single linked complaint is always "stable"). -/
theorem c4_determineTrend_witness :
    ([(⟨"old water leak", 0, "loc"⟩ : Priority.PComplaint)] : List Priority.PComplaint).length < 2
      ∧ Priority.determineTrend 1000 ([(⟨"old water leak", 0, "loc"⟩ : Priority.PComplaint)]) = "stable" :=
  ⟨by decide,
    (c4_determineTrend_classification 1000 ([(⟨"old water leak", 0, "loc"⟩ : Priority.PComplaint)])).1
      (by decide)⟩

/-- C10: with at least 2 complaints the second half of the midpoint split is
never shorter than the first, so the growth ratio is at least 1 and
`determineTrend` can never return "falling". -/
theorem c10_falling_unreachable (now : ℚ) (complaints : List Priority.PComplaint)
    (h : 2 ≤ complaints.length) :
    Priority.determineTrend now complaints ≠ "falling" := by
  have h2 : ¬ (complaints.length < 2) := by omega
  unfold Priority.determineTrend
  rw [if_neg h2]
  dsimp only
  have hlen : (Priority.sortByCreated complaints).length = complaints.length := by
    unfold Priority.sortByCreated
    exact List.length_mergeSort _
  have htake : ((Priority.sortByCreated complaints).take
      ((Priority.sortByCreated complaints).length / 2)).length
        = (Priority.sortByCreated complaints).length / 2 := by
    rw [List.length_take]
    omega
  have hdrop : ((Priority.sortByCreated complaints).drop
      ((Priority.sortByCreated complaints).length / 2)).length
        = (Priority.sortByCreated complaints).length
          - (Priority.sortByCreated complaints).length / 2 :=
    List.length_drop _ _
  have hfpos : (0 : ℚ) < (((Priority.sortByCreated complaints).take
      ((Priority.sortByCreated complaints).length / 2)).length : ℚ) := by
    rw [htake]
    have hpos : 0 < (Priority.sortByCreated complaints).length / 2 := by omega
    exact_mod_cast hpos
  have hge : (((Priority.sortByCreated complaints).take
      ((Priority.sortByCreated complaints).length / 2)).length : ℚ)
        ≤ (((Priority.sortByCreated complaints).drop
          ((Priority.sortByCreated complaints).length / 2)).length : ℚ) := by
    rw [htake, hdrop]
    have hle : (Priority.sortByCreated complaints).length / 2
        ≤ (Priority.sortByCreated complaints).length
          - (Priority.sortByCreated complaints).length / 2 := by omega
    exact_mod_cast hle
  have hgrowth : (1 : ℚ) ≤ (((Priority.sortByCreated complaints).drop
      ((Priority.sortByCreated complaints).length / 2)).length : ℚ)
        / (((Priority.sortByCreated complaints).take
          ((Priority.sortByCreated complaints).length / 2)).length : ℚ) :=
    (one_le_div hfpos).mpr hge
  split_ifs with hc1 hc2
  · decide
  · exact absurd hc2 (by linarith)
  · decide

/-- Witness for C10 at a concrete two-element list. -/
theorem c10_falling_unreachable_witness :
    2 ≤ ([(⟨"water", 0, "a"⟩ : Priority.PComplaint), ⟨"road", 100, "b"⟩] : List Priority.PComplaint).length
      ∧ Priority.determineTrend 1000
          ([(⟨"water", 0, "a"⟩ : Priority.PComplaint), ⟨"road", 100, "b"⟩]) ≠ "falling" :=
  ⟨by decide,
    c10_falling_unreachable 1000 ([(⟨"water", 0, "a"⟩ : Priority.PComplaint), ⟨"road", 100, "b"⟩])
      (by decide)⟩

namespace Understanding

/-- Cell `300 + 20t + i` of the pre-hash embedding (tier `t`'s band) holds
tier `t`'s normalized score. -/
theorem baseEmbedding_sevCell (text : String) (t i : ℕ) (ht : t < 3) (hi : i < 20) :
    (baseEmbedding text).getD (300 + 20 * t + i) 0
      = tierScoreOf (wordsOf text) (severityTerms.getD t [])
        / (((severityTerms.getD t []).length : ℚ) + 1) := by
  have hn : 300 + 20 * t + i < 384 := by omega
  unfold baseEmbedding
  dsimp only
  rw [List.getD_eq_getElem _ _ (by simpa using hn)]
  rw [List.getElem_map, List.getElem_range]
  have h1 : ¬ (300 + 20 * t + i < 300) := by omega
  have h2 : 300 + 20 * t + i < 360 := by omega
  rw [if_neg h1, if_pos h2]
  have h3 : 300 + 20 * t + i - 300 = 20 * t + i := by omega
  rw [h3]
  have h4 : (20 * t + i) / 20 = t := by
    rw [Nat.mul_add_div (by norm_num)]
    simp [Nat.div_eq_of_lt hi]
  rw [h4]
  have h5 : t < (severityTerms.map
      (fun tier => tierScoreOf (wordsOf text) tier / ((tier.length : ℚ) + 1))).length := by
    simpa [severityTerms] using ht
  rw [List.getD_eq_getElem _ _ h5, List.getElem_map,
    List.getD_eq_getElem _ _ (show t < severityTerms.length by simpa [severityTerms] using ht)]

/-- Cell `30t + i` of the pre-hash embedding (category `t`'s band) holds
category `t`'s normalized score. -/
theorem baseEmbedding_catCell (text : String) (t i : ℕ) (ht : t < 10) (hi : i < 30) :
    (baseEmbedding text).getD (30 * t + i) 0
      = categoryScoreOf (wordsOf text) (problemCategories.getD t [])
        / (((problemCategories.getD t []).length : ℚ) + 1) := by
  have hn : 30 * t + i < 384 := by omega
  unfold baseEmbedding
  dsimp only
  rw [List.getD_eq_getElem _ _ (by simpa using hn)]
  rw [List.getElem_map, List.getElem_range]
  have h1 : 30 * t + i < 300 := by omega
  rw [if_pos h1]
  have h4 : (30 * t + i) / 30 = t := by
    rw [Nat.mul_add_div (by norm_num)]
    simp [Nat.div_eq_of_lt hi]
  rw [h4]
  have h5 : t < (problemCategories.map
      (fun cat => categoryScoreOf (wordsOf text) cat / ((cat.length : ℚ) + 1))).length := by
    simpa [problemCategories] using ht
  rw [List.getD_eq_getElem _ _ h5, List.getElem_map,
    List.getD_eq_getElem _ _ (show t < problemCategories.length by simpa [problemCategories] using ht)]

end Understanding

/-- C6 counterexample: on the input "urgently" the urgent tier's band cell
(index 300) is 0, because the source counts only exact word matches for the
urgency tiers, while the claimed category-style formula (with the 0.5
substring component, `tierScoreClaimed`) would give 0.5/7. -/
theorem c6_counterexample :
    (Understanding.baseEmbedding ("urgently")).getD 300 0
      ≠ Understanding.tierScoreClaimed (Understanding.wordsOf ("urgently"))
          (Understanding.severityTerms.getD 0 [])
        / (((Understanding.severityTerms.getD 0 []).length : ℚ) + 1) := by
  have h := Understanding.baseEmbedding_sevCell ("urgently") 0 0 (by norm_num) (by norm_num)
  simp only [Nat.mul_zero, Nat.add_zero] at h
  rw [h]
  have hw : Understanding.wordsOf ("urgently") = [("urgently" : String)] := by decide
  rw [hw]
  simp +decide [Understanding.tierScoreOf, Understanding.tierScoreClaimed,
    Understanding.severityTerms, strIncludes, containsSeg]
  norm_num

/-- C6 (amended): each urgency tier's 20-cell band in the fingerprint is
uniformly set to the tier's score computed from exact keyword matches ONLY
(count of tier keywords present in the word set — no 0.5 substring
component), normalized by (tier keyword-set size + 1). -/
theorem c6_urgency_bands (text : String) (t i : ℕ) (ht : t < 3) (hi : i < 20) :
    (Understanding.baseEmbedding text).getD (300 + 20 * t + i) 0
      = Understanding.tierScoreOf (Understanding.wordsOf text)
          (Understanding.severityTerms.getD t [])
        / (((Understanding.severityTerms.getD t []).length : ℚ) + 1) :=
  Understanding.baseEmbedding_sevCell text t i ht hi

/-- Witness for C6 (amended) at tier 0, cell 0, on a concrete text. -/
theorem c6_urgency_bands_witness :
    (0 : ℕ) < 3 ∧ (0 : ℕ) < 20
      ∧ (Understanding.baseEmbedding ("please help now")).getD (300 + 20 * 0 + 0) 0
        = Understanding.tierScoreOf (Understanding.wordsOf ("please help now"))
            (Understanding.severityTerms.getD 0 [])
          / (((Understanding.severityTerms.getD 0 []).length : ℚ) + 1) :=
  ⟨by decide, by decide, c6_urgency_bands ("please help now") 0 0 (by decide) (by decide)⟩

/-- Casting a rational sum of squares to the reals. -/
theorem ratCast_sum_map_sq (v : List ℚ) :
    (v.map (fun q : ℚ => (q : ℝ) * (q : ℝ))).sum = (((v.map (fun x => x * x)).sum : ℚ) : ℝ) := by
  induction v with
  | nil => simp
  | cons a t ih =>
      simp only [List.map_cons, List.sum_cons, ih]
      push_cast
      ring

/-- C5: the fingerprint is exactly unit-length (hence within the claimed
1e-6 tolerance) whenever some entry of the raw vector is non-zero, and an
all-zero raw vector is returned unchanged (the division by the magnitude is
guarded, so normalization never divides by zero). -/
theorem c5_unit_norm (text : String) :
    ((∃ q ∈ Understanding.rawEmbedding text, q ≠ 0)
        → Understanding.l2norm (Understanding.generateEmbedding text) = 1)
    ∧ ((∀ q ∈ Understanding.rawEmbedding text, q = 0)
        → Understanding.generateEmbedding text
            = (Understanding.rawEmbedding text).map (fun q : ℚ => (q : ℝ))) := by
  constructor
  · rintro ⟨q, hq, hq0⟩
    have hMpos : 0 < ((Understanding.rawEmbedding text).map (fun x => x * x)).sum := by
      have hmem : q * q ∈ (Understanding.rawEmbedding text).map (fun x => x * x) :=
        List.mem_map_of_mem _ hq
      have hle : q * q ≤ ((Understanding.rawEmbedding text).map (fun x => x * x)).sum := by
        refine List.single_le_sum ?_ _ hmem
        intro x hx
        simp only [List.mem_map] at hx
        obtain ⟨y, _, rfl⟩ := hx
        exact mul_self_nonneg y
      have hqq : 0 < q * q := mul_self_pos.mpr hq0
      linarith
    unfold Understanding.generateEmbedding Understanding.l2norm
    dsimp only
    rw [if_neg (ne_of_gt hMpos)]
    have hs2 : Real.sqrt ((((Understanding.rawEmbedding text).map (fun x => x * x)).sum : ℚ)) ^ 2
        = ((((Understanding.rawEmbedding text).map (fun x => x * x)).sum : ℚ) : ℝ) :=
      Real.sq_sqrt (by exact_mod_cast le_of_lt hMpos)
    have hsne : Real.sqrt ((((Understanding.rawEmbedding text).map (fun x => x * x)).sum : ℚ)) ≠ 0 := by
      refine ne_of_gt (Real.sqrt_pos.mpr ?_)
      exact_mod_cast hMpos
    have key : (((Understanding.rawEmbedding text).map (fun q : ℚ =>
        (q : ℝ) / Real.sqrt ((((Understanding.rawEmbedding text).map (fun x => x * x)).sum : ℚ)))).map
          (fun x => x * x)).sum = 1 := by
      rw [List.map_map]
      have hfun : ((fun x : ℝ => x * x) ∘ (fun q : ℚ =>
          (q : ℝ) / Real.sqrt ((((Understanding.rawEmbedding text).map (fun x => x * x)).sum : ℚ))))
            = fun q : ℚ => ((q : ℝ) * (q : ℝ))
                * (1 / Real.sqrt ((((Understanding.rawEmbedding text).map (fun x => x * x)).sum : ℚ)) ^ 2) := by
        funext q
        field_simp
        ring
      rw [hfun]
      rw [List.sum_map_mul_right]
      have hcast := ratCast_sum_map_sq (Understanding.rawEmbedding text)
      rw [hcast, hs2]
      have hMne : ((((Understanding.rawEmbedding text).map (fun x => x * x)).sum : ℚ) : ℝ) ≠ 0 := by
        exact_mod_cast ne_of_gt hMpos
      rw [mul_one_div, div_self hMne]
    rw [key, Real.sqrt_one]
  · intro hz
    have hM0 : ((Understanding.rawEmbedding text).map (fun x => x * x)).sum = 0 := by
      refine List.sum_eq_zero ?_
      intro x hx
      simp only [List.mem_map] at hx
      obtain ⟨y, hy, rfl⟩ := hx
      rw [hz y hy]
      ring
    unfold Understanding.generateEmbedding
    dsimp only
    rw [if_pos hM0]

set_option maxRecDepth 10000 in
/-- Witness for C5 on the text "water": its raw fingerprint has a non-zero
entry (cell 0 holds 1/6), so the normalized fingerprint has norm 1. -/
theorem c5_unit_norm_witness :
    (∃ q ∈ Understanding.rawEmbedding ("water"), q ≠ 0)
      ∧ Understanding.l2norm (Understanding.generateEmbedding ("water")) = 1 := by
  have hw : Understanding.wordsOf ("water") = [("water" : String)] := by decide
  have hpos : (Understanding.simpleHash ("water") % 384).toNat = 151 := by decide
  have hr : Understanding.rawEmbedding ("water")
      = (Understanding.baseEmbedding ("water")).set 151
          ((Understanding.baseEmbedding ("water")).getD 151 0 + 1 / 10) := by
    unfold Understanding.rawEmbedding Understanding.hashStage
    rw [hw]
    simp only [List.foldl_cons, List.foldl_nil]
    rw [if_pos (by decide : 3 < ("water" : String).length)]
    rw [hpos]
  have hlen : (Understanding.baseEmbedding ("water")).length = 384 := by
    simp [Understanding.baseEmbedding]
  have hc := Understanding.baseEmbedding_catCell ("water") 0 0 (by norm_num) (by norm_num)
  simp only [Nat.mul_zero, Nat.add_zero, Nat.zero_add] at hc
  rw [hw] at hc
  have hcat : Understanding.categoryScoreOf ([("water" : String)])
      (Understanding.problemCategories.getD 0 []) = 3 / 2 := by
    simp +decide [Understanding.categoryScoreOf, Understanding.problemCategories,
      strIncludes, containsSeg]
    norm_num
  rw [hcat] at hc
  have hc6 : (Understanding.baseEmbedding ("water")).getD 0 0 = 1 / 6 := by
    rw [hc]
    norm_num [Understanding.problemCategories]
  have hvlen : (Understanding.rawEmbedding ("water")).length = 384 := by
    rw [hr, List.length_set, hlen]
  have hv : (Understanding.rawEmbedding ("water")).getD 0 0 = 1 / 6 := by
    rw [hr]
    rw [List.getD_eq_getElem _ _ (by rw [List.length_set, hlen]; omega)]
    rw [List.getElem_set_ne (by omega)]
    rw [← List.getD_eq_getElem _ 0 (by rw [hlen]; omega)]
    exact hc6
  refine ⟨⟨(Understanding.rawEmbedding ("water")).getD 0 0, ?_, ?_⟩, ?_⟩
  · rw [List.getD_eq_getElem _ _ (by rw [hvlen]; omega)]
    exact List.getElem_mem _
  · rw [hv]
    norm_num
  · refine (c5_unit_norm ("water")).1 ?_
    refine ⟨(Understanding.rawEmbedding ("water")).getD 0 0, ?_, ?_⟩
    · rw [List.getD_eq_getElem _ _ (by rw [hvlen]; omega)]
      exact List.getElem_mem _
    · rw [hv]
      norm_num

namespace Discovery

/-- The insert loop only appends: its effect on the problem and link tables
is to append exactly one `mkProblemRow` per cluster and that cluster's
`mkLinkRows`. -/
theorem discoveryInsert_proj (newIds : ℕ → String) (ecls : List (ℕ × Cluster)) :
    ∀ st : DBState,
      ((ecls.foldl (fun s ic => insertClusterStep (newIds ic.1) ic.2 s) st).problems
          = st.problems ++ ecls.map (fun ic => mkProblemRow (newIds ic.1) ic.2))
        ∧ ((ecls.foldl (fun s ic => insertClusterStep (newIds ic.1) ic.2 s) st).links
          = st.links ++ (ecls.map (fun ic => mkLinkRows (newIds ic.1) ic.2)).flatten) := by
  induction ecls with
  | nil =>
      intro st
      simp
  | cons a t ih =>
      intro st
      simp only [List.foldl_cons, List.map_cons, List.flatten_cons]
      obtain ⟨ih1, ih2⟩ := ih (insertClusterStep (newIds a.1) a.2 st)
      constructor
      · rw [ih1]
        simp [insertClusterStep, List.append_assoc]
      · rw [ih2]
        simp [insertClusterStep, List.append_assoc]

end Discovery

/-- C2: one discovery (re-analysis) run deletes every pre-existing problem
row and every link row before inserting the new cluster set, so the problem
and link tables afterwards consist exactly of the rows produced by this run
(wholesale replacement, no merge).  The hypotheses record that no persisted
row carries the all-zero sentinel UUID, which `gen_random_uuid()` (UUID v4)
can never generate, so the `.neq(sentinel)` delete filters match every row. -/
theorem c2_full_replacement (s : Discovery.DBState) (clusters : List Discovery.Cluster)
    (newIds : ℕ → String)
    (hp : ∀ p ∈ s.problems, p.id ≠ Discovery.zeroUUID)
    (hl : ∀ l ∈ s.links, l.complaint_id ≠ Discovery.zeroUUID) :
    (Discovery.discoveryRun s clusters newIds).problems
        = clusters.enum.map (fun ic => Discovery.mkProblemRow (newIds ic.1) ic.2)
      ∧ (Discovery.discoveryRun s clusters newIds).links
        = (clusters.enum.map (fun ic => Discovery.mkLinkRows (newIds ic.1) ic.2)).flatten := by
  unfold Discovery.discoveryRun
  obtain ⟨h1, h2⟩ := Discovery.discoveryInsert_proj newIds clusters.enum
    (Discovery.deleteLinks (Discovery.deleteProblems s))
  have hdp : (Discovery.deleteLinks (Discovery.deleteProblems s)).problems = [] := by
    simp only [Discovery.deleteLinks, Discovery.deleteProblems]
    rw [List.filter_eq_nil_iff]
    intro p hpm
    simpa using hp p hpm
  have hdl : (Discovery.deleteLinks (Discovery.deleteProblems s)).links = [] := by
    simp only [Discovery.deleteLinks, Discovery.deleteProblems]
    rw [List.filter_eq_nil_iff]
    intro l hlm
    simpa using hl l hlm
  rw [h1, h2, hdp, hdl]
  simp

/-- Witness for C2 at a concrete one-problem, one-link, one-cluster state. -/
theorem c2_full_replacement_witness :
    (∀ p ∈ (Discovery.DBState.mk [⟨"a", "T", 0, 1, 5, "stable", []⟩]
        [⟨"c0", "a", 4 / 5⟩] [("c1", "processing")]).problems, p.id ≠ Discovery.zeroUUID)
      ∧ (∀ l ∈ (Discovery.DBState.mk [⟨"a", "T", 0, 1, 5, "stable", []⟩]
          [⟨"c0", "a", 4 / 5⟩] [("c1", "processing")]).links, l.complaint_id ≠ Discovery.zeroUUID)
      ∧ (Discovery.discoveryRun (Discovery.DBState.mk [⟨"a", "T", 0, 1, 5, "stable", []⟩]
            [⟨"c0", "a", 4 / 5⟩] [("c1", "processing")])
            ([⟨0, [⟨"c1", "water leak", [1], "loc"⟩], [1], ""⟩]) (fun _ => "b")).problems
          = ([(⟨0, [⟨"c1", "water leak", [1], "loc"⟩], [1], ""⟩ : Discovery.Cluster)]).enum.map
              (fun ic => Discovery.mkProblemRow ((fun _ : ℕ => "b") ic.1) ic.2) :=
  ⟨by decide, by decide,
    (c2_full_replacement (Discovery.DBState.mk [⟨"a", "T", 0, 1, 5, "stable", []⟩]
        [⟨"c0", "a", 4 / 5⟩] [("c1", "processing")])
        ([⟨0, [⟨"c1", "water leak", [1], "loc"⟩], [1], ""⟩]) (fun _ => "b")
        (by decide) (by decide)).1⟩

namespace Discovery

/-- The assignment fold either keeps the incoming best index or returns the
index of one of the scanned centroids. -/
theorem bestClusterAux_fst (e : List ℚ) :
    ∀ (cs : List (List ℚ)) (i : ℕ) (best : ℕ × SimVal),
      (bestClusterAux e cs i best).1 = best.1
        ∨ (i ≤ (bestClusterAux e cs i best).1
            ∧ (bestClusterAux e cs i best).1 < i + cs.length) := by
  intro cs
  induction cs with
  | nil =>
      intro i best
      left
      rfl
  | cons c t ih =>
      intro i best
      simp only [bestClusterAux]
      by_cases hgt : simGt (cosineSim e c) best.2
      · rw [if_pos hgt]
        rcases ih (i + 1) (i, cosineSim e c) with h | ⟨h1, h2⟩
        · have h' : (bestClusterAux e t (i + 1) (i, cosineSim e c)).1 = i := h
          right
          rw [h']
          simp only [List.length_cons]
          omega
        · right
          simp only [List.length_cons]
          omega
      · rw [if_neg hgt]
        rcases ih (i + 1) best with h | ⟨h1, h2⟩
        · left
          exact h
        · right
          simp only [List.length_cons]
          omega

/-- With at least one centroid, the chosen best-cluster index is in range. -/
theorem bestClusterIdx_lt (cents : List (List ℚ)) (e : List ℚ) (h : cents ≠ []) :
    bestClusterIdx cents e < cents.length := by
  have hpos : 0 < cents.length := List.length_pos.mpr h
  unfold bestClusterIdx
  rcases bestClusterAux_fst e cents 0 (0, ((-1 : ℚ), (1 : ℚ))) with h1 | ⟨_, h2⟩
  · rw [h1]
    exact hpos
  · omega

/-- The assignment phase keeps the cluster count. -/
theorem assignStep_length (complaints : List Complaint) (cls : List Cluster) :
    (assignStep complaints cls).length = cls.length := by
  simp [assignStep]

/-- After the assignment phase, cluster `i` holds exactly the complaints
whose best cluster is `i`. -/
theorem assignStep_complaints (complaints : List Complaint) (cls : List Cluster)
    (i : ℕ) (hi : i < (assignStep complaints cls).length) :
    (assignStep complaints cls)[i].complaints
      = complaints.filter (fun c =>
          bestClusterIdx (cls.map (fun cl => cl.centroid)) c.embedding = i) := by
  simp only [assignStep]
  rw [List.getElem_map, List.getElem_range]

/-- The update phase keeps the cluster count. -/
theorem updateStep_length (dim : ℕ) (cls : List Cluster) :
    (updateStep dim cls).1.length = cls.length := by
  simp [updateStep]

/-- The update phase does not touch any cluster's member list. -/
theorem updateStep_complaints (dim : ℕ) (cls : List Cluster)
    (i : ℕ) (hi : i < (updateStep dim cls).1.length) (hi' : i < cls.length) :
    (updateStep dim cls).1[i].complaints = cls[i].complaints := by
  simp only [updateStep]
  rw [List.getElem_map, List.getElem_map]
  split <;> try rfl
  split <;> rfl

/-- One assign-then-update round leaves the clusters in an assignment
state. -/
theorem update_assign_isAssignment (complaints : List Complaint) (dim : ℕ)
    (cls : List Cluster) :
    IsAssignment complaints (updateStep dim (assignStep complaints cls)).1 := by
  refine ⟨cls.map (fun cl => cl.centroid), ?_, ?_⟩
  · rw [updateStep_length, assignStep_length]
    simp
  · intro i hi
    have hi2 : i < (updateStep dim (assignStep complaints cls)).1.length := hi
    have hi3 : i < (assignStep complaints cls).length := by
      rw [assignStep_length]
      rw [updateStep_length, assignStep_length] at hi
      exact hi
    rw [updateStep_complaints dim _ i hi2 hi3]
    exact assignStep_complaints complaints cls i hi3

/-- The k-means loop keeps the cluster count. -/
theorem kmeansIterate_length (complaints : List Complaint) (dim : ℕ) :
    ∀ (fuel : ℕ) (cls : List Cluster),
      (kmeansIterate complaints dim fuel cls).length = cls.length := by
  intro fuel
  induction fuel with
  | zero =>
      intro cls
      rfl
  | succ m ih =>
      intro cls
      simp only [kmeansIterate]
      split
      · rw [ih]
        rw [updateStep_length, assignStep_length]
      · rw [updateStep_length, assignStep_length]

/-- After at least one round, the k-means loop leaves the clusters in an
assignment state. -/
theorem kmeansIterate_isAssignment (complaints : List Complaint) (dim : ℕ) :
    ∀ (fuel : ℕ) (cls : List Cluster), 1 ≤ fuel →
      IsAssignment complaints (kmeansIterate complaints dim fuel cls) := by
  intro fuel
  induction fuel with
  | zero =>
      intro cls h
      omega
  | succ m ih =>
      intro cls _
      simp only [kmeansIterate]
      split
      · by_cases hm : 1 ≤ m
        · exact ih _ hm
        · have hm0 : m = 0 := by omega
          subst hm0
          exact update_assign_isAssignment complaints dim cls
      · exact update_assign_isAssignment complaints dim cls

end Discovery

/-- C1: for every non-empty complaint list and every k ≥ 1 (any seeding of
the random initial centroids), `kMeansClustering` succeeds and returns at
most k clusters, none of them empty, and every input complaint belongs to
exactly one returned cluster — the clusters partition the input. -/
theorem c1_kmeans_partition (complaints : List Discovery.Complaint) (k : ℕ) (pick : ℕ → ℕ)
    (hne : complaints ≠ []) (hk : 1 ≤ k)
    (hpick : ∀ i < min k complaints.length, pick i < complaints.length) :
    ∃ cs, Discovery.kMeansClustering complaints k pick = some cs
      ∧ cs.length ≤ k
      ∧ (∀ cl ∈ cs, cl.complaints ≠ [])
      ∧ ∀ x ∈ complaints, cs.countP (fun cl => decide (x ∈ cl.complaints)) = 1 := by
  have hlen : 0 < complaints.length := List.length_pos.mpr hne
  have hK : 0 < min k complaints.length := by omega
  unfold Discovery.kMeansClustering
  rw [if_neg (by simpa [List.isEmpty_iff] using hne), if_neg (by omega)]
  refine ⟨_, rfl, ?_, ?_, ?_⟩
  · calc ((Discovery.kmeansIterate complaints
        (complaints.headD default).embedding.length 20
        (Discovery.kmeansInit complaints k pick)).filter
          (fun c => decide (0 < c.complaints.length))).length
        ≤ (Discovery.kmeansIterate complaints
            (complaints.headD default).embedding.length 20
            (Discovery.kmeansInit complaints k pick)).length := List.length_filter_le _ _
      _ = (Discovery.kmeansInit complaints k pick).length :=
        Discovery.kmeansIterate_length _ _ _ _
      _ = min k complaints.length := by simp [Discovery.kmeansInit]
      _ ≤ k := min_le_left _ _
  · intro cl hcl
    rw [List.mem_filter] at hcl
    have := of_decide_eq_true hcl.2
    exact List.ne_nil_of_length_pos this
  · intro x hx
    obtain ⟨cents, hclen, hpoint⟩ := Discovery.kmeansIterate_isAssignment complaints
      (complaints.headD default).embedding.length 20 (Discovery.kmeansInit complaints k pick)
      (by omega)
    have hflen : (Discovery.kmeansIterate complaints
        (complaints.headD default).embedding.length 20
        (Discovery.kmeansInit complaints k pick)).length = min k complaints.length := by
      rw [Discovery.kmeansIterate_length]
      simp [Discovery.kmeansInit]
    have hcentsne : cents ≠ [] := by
      refine List.ne_nil_of_length_pos ?_
      rw [hclen, hflen]
      exact hK
    have hj : Discovery.bestClusterIdx cents x.embedding < min k complaints.length := by
      have := Discovery.bestClusterIdx_lt cents x.embedding hcentsne
      rw [hclen, hflen] at this
      exact this
    rw [List.countP_filter]
    have hcongr1 : List.countP
        (fun cl => decide (x ∈ cl.complaints) && decide (0 < cl.complaints.length))
        (Discovery.kmeansIterate complaints (complaints.headD default).embedding.length 20
          (Discovery.kmeansInit complaints k pick))
        = List.countP (fun cl => decide (x ∈ cl.complaints))
            (Discovery.kmeansIterate complaints (complaints.headD default).embedding.length 20
              (Discovery.kmeansInit complaints k pick)) := by
      refine List.countP_congr ?_
      intro cl _
      by_cases hm : x ∈ cl.complaints
      · simp [hm, List.length_pos_of_mem hm]
      · simp [hm]
    rw [hcongr1]
    have hcomp : (fun cl : Discovery.Cluster => decide (x ∈ cl.complaints))
        = (fun ms : List Discovery.Complaint => decide (x ∈ ms))
            ∘ (fun cl : Discovery.Cluster => cl.complaints) := rfl
    rw [hcomp]
    rw [← List.countP_map (fun ms : List Discovery.Complaint => decide (x ∈ ms))
      (fun cl : Discovery.Cluster => cl.complaints)]
    have hmapeq : (Discovery.kmeansIterate complaints
        (complaints.headD default).embedding.length 20
        (Discovery.kmeansInit complaints k pick)).map
          (fun cl : Discovery.Cluster => cl.complaints)
        = (List.range (min k complaints.length)).map
            (fun i => complaints.filter
              (fun c => Discovery.bestClusterIdx cents c.embedding = i)) := by
      refine List.ext_getElem (by
        simp only [List.length_map, List.length_range]
        exact hflen) ?_
      intro n h1 h2
      rw [List.getElem_map, List.getElem_map, List.getElem_range]
      rw [List.length_map, hflen] at h1
      exact hpoint n (by rw [hflen]; simpa using h1)
    rw [hmapeq]
    rw [List.countP_map]
    have hcongr2 : List.countP
        ((fun ms : List Discovery.Complaint => decide (x ∈ ms))
          ∘ (fun i => complaints.filter
              (fun c => Discovery.bestClusterIdx cents c.embedding = i)))
        (List.range (min k complaints.length))
        = List.countP (fun i => i == Discovery.bestClusterIdx cents x.embedding)
            (List.range (min k complaints.length)) := by
      refine List.countP_congr ?_
      intro i hi
      simp only [Function.comp]
      by_cases hij : Discovery.bestClusterIdx cents x.embedding = i
      · subst hij
        simp [List.mem_filter, hx]
      · constructor
        · intro hdec
          have hmem := of_decide_eq_true hdec
          rw [List.mem_filter] at hmem
          exact absurd (of_decide_eq_true hmem.2) hij
        · intro hbeq
          rw [beq_iff_eq] at hbeq
          exact absurd hbeq.symm hij
    rw [hcongr2]
    have := List.count_eq_one_of_mem (List.nodup_range (min k complaints.length))
      (List.mem_range.mpr hj)
    simpa [List.count] using this

/-- Witness for C1 at a concrete one-complaint list with k = 1. -/
theorem c1_kmeans_partition_witness :
    (([⟨"c1", "water leak", [1], "loc"⟩] : List Discovery.Complaint) ≠ []
        ∧ 1 ≤ 1
        ∧ ∀ i < min 1 ([⟨"c1", "water leak", [1], "loc"⟩] : List Discovery.Complaint).length,
            (fun _ : ℕ => 0) i < ([⟨"c1", "water leak", [1], "loc"⟩] : List Discovery.Complaint).length)
      ∧ ∃ cs, Discovery.kMeansClustering ([⟨"c1", "water leak", [1], "loc"⟩]) 1 (fun _ => 0) = some cs
          ∧ cs.length ≤ 1
          ∧ (∀ cl ∈ cs, cl.complaints ≠ [])
          ∧ ∀ x ∈ ([⟨"c1", "water leak", [1], "loc"⟩] : List Discovery.Complaint),
              cs.countP (fun cl => decide (x ∈ cl.complaints)) = 1 :=
  ⟨⟨by decide, by decide, by
      intro i hi
      exact Nat.one_pos⟩,
    c1_kmeans_partition ([⟨"c1", "water leak", [1], "loc"⟩]) 1 (fun _ => 0)
      (by decide) (by decide)
      (by
        intro i hi
        exact Nat.one_pos)⟩

namespace Ingestion

/-- `Char.ofNat` round-trips on ASCII lower-case codes. -/
theorem charOfNat_toNat (m : ℕ) (h1 : 97 ≤ m) (h2 : m ≤ 122) : (Char.ofNat m).toNat = m := by
  have hv : m.isValidChar := Or.inl (by omega)
  simp only [Char.ofNat, hv, dite_true, Char.ofNatAux, Char.toNat]
  simp [UInt32.toNat, UInt32.ofNat', BitVec.toNat_ofNatLt]

/-- ASCII lower-casing is idempotent. -/
theorem toLower_idem (c : Char) : c.toLower.toLower = c.toLower := by
  unfold Char.toLower
  by_cases h : c.toNat ≥ 65 ∧ c.toNat ≤ 90
  · have ht : (Char.ofNat (c.toNat + 32)).toNat = c.toNat + 32 :=
      charOfNat_toNat (c.toNat + 32) (by omega) (by omega)
    rw [if_pos h, ht]
    have hno : ¬ (c.toNat + 32 ≥ 65 ∧ c.toNat + 32 ≤ 90) := by omega
    rw [if_neg hno]
  · rw [if_neg h, if_neg h]

/-- `splitSp` never returns the empty list of tokens. -/
theorem splitSp_ne_nil : ∀ l : List Char, splitSp l ≠ [] := by
  intro l
  induction l with
  | nil => simp [splitSp]
  | cons c cs ih =>
      simp only [splitSp]
      split
      · simp
      · split
        · simp
        · simp

/-- Splitting a space-free prefix glues it onto the first token of the
rest. -/
theorem splitSp_append (t : List Char) :
    ∀ (l h : List Char) (tl : List (List Char)), ' ' ∉ t → splitSp l = h :: tl →
      splitSp (t ++ l) = (t ++ h) :: tl := by
  induction t with
  | nil =>
      intro l h tl _ hsp
      simpa using hsp
  | cons c t' ih =>
      intro l h tl hns hsp
      have hc : c ≠ ' ' := fun hceq => hns (hceq ▸ List.mem_cons_self c t')
      have ht' : ' ' ∉ t' := fun hmem => hns (List.mem_cons_of_mem c hmem)
      simp only [List.cons_append, splitSp]
      rw [if_neg hc]
      simp only [List.append_eq]
      rw [ih l h tl ht' hsp]

/-- Tokens produced by `splitSp` contain no space. -/
theorem splitSp_no_space : ∀ (l t : List Char), t ∈ splitSp l → ' ' ∉ t := by
  intro l
  induction l with
  | nil =>
      intro t ht
      simp only [splitSp, List.mem_singleton] at ht
      subst ht
      simp
  | cons c cs ih =>
      intro t ht
      simp only [splitSp] at ht
      by_cases hc : c = ' '
      · rw [if_pos hc] at ht
        rcases List.mem_cons.mp ht with h | h
        · subst h
          simp
        · exact ih t h
      · rw [if_neg hc] at ht
        cases hsp : splitSp cs with
        | nil => exact absurd hsp (splitSp_ne_nil cs)
        | cons t0 ts0 =>
            rw [hsp] at ht
            rcases List.mem_cons.mp ht with h | h
            · subst h
              intro hmem
              rcases List.mem_cons.mp hmem with h' | h'
              · exact hc h'.symm
              · exact ih t0 (by rw [hsp]; exact List.mem_cons_self t0 ts0) h'
            · exact ih t (by rw [hsp]; exact List.mem_cons_of_mem t0 h)

/-- Characters of `splitSp`'s tokens come from the split list. -/
theorem splitSp_subset : ∀ (l t : List Char), t ∈ splitSp l → ∀ c ∈ t, c ∈ l := by
  intro l
  induction l with
  | nil =>
      intro t ht
      simp only [splitSp, List.mem_singleton] at ht
      subst ht
      simp
  | cons a cs ih =>
      intro t ht c hc
      simp only [splitSp] at ht
      by_cases ha : a = ' '
      · rw [if_pos ha] at ht
        rcases List.mem_cons.mp ht with h | h
        · subst h
          simp at hc
        · exact List.mem_cons_of_mem a (ih t h c hc)
      · rw [if_neg ha] at ht
        cases hsp : splitSp cs with
        | nil => exact absurd hsp (splitSp_ne_nil cs)
        | cons t0 ts0 =>
            rw [hsp] at ht
            rcases List.mem_cons.mp ht with h | h
            · subst h
              rcases List.mem_cons.mp hc with h' | h'
              · rw [h']
                exact List.mem_cons_self a cs
              · refine List.mem_cons_of_mem a (ih t0 ?_ c h')
                rw [hsp]
                exact List.mem_cons_self t0 ts0
            · refine List.mem_cons_of_mem a (ih t ?_ c hc)
              rw [hsp]
              exact List.mem_cons_of_mem t0 h

/-- `squeeze` only drops characters. -/
theorem squeeze_subset : ∀ (l : List Char) (c : Char), c ∈ squeeze l → c ∈ l := by
  intro l
  induction l with
  | nil => intro c hc; simpa [squeeze] using hc
  | cons a r ihr =>
      cases r with
      | nil => intro c hc; simpa [squeeze] using hc
      | cons b r' =>
          intro c hc
          simp only [squeeze] at hc
          split at hc
          · exact List.mem_cons_of_mem a (ihr c hc)
          · rcases List.mem_cons.mp hc with h | h
            · subst h
              exact List.mem_cons_self c (b :: r')
            · exact List.mem_cons_of_mem a (ihr c h)

/-- `squeeze` is the identity when no two consecutive spaces occur. -/
theorem squeeze_eq_self :
    ∀ l : List Char, List.Chain' (fun a b => ¬(a = ' ' ∧ b = ' ')) l → squeeze l = l := by
  intro l
  induction l with
  | nil => intro _; rfl
  | cons a r ihr =>
      cases r with
      | nil => intro _; rfl
      | cons b r' =>
          intro hch
          have hR : ¬(a = ' ' ∧ b = ' ') := (List.chain'_cons.mp hch).1
          simp only [squeeze]
          rw [if_neg (by simpa using hR)]
          rw [ihr (List.chain'_cons.mp hch).2]

/-- A list of non-space characters satisfies the no-double-space chain. -/
theorem chain'_no_space (l : List Char) (h : ∀ c ∈ l, c ≠ ' ') :
    List.Chain' (fun a b => ¬(a = ' ' ∧ b = ' ')) l := by
  induction l with
  | nil => simp
  | cons a r ih =>
      rw [List.chain'_cons']
      refine ⟨?_, ih (fun c hc => h c (List.mem_cons_of_mem a hc))⟩
      intro y _ hand
      exact h a (List.mem_cons_self a r) hand.1

/-- Joining non-empty tokens yields a non-empty list. -/
theorem joinTokens_ne_nil (t : List Char) (ts : List (List Char)) (ht : t ≠ []) :
    joinTokens (t :: ts) ≠ [] := by
  cases ts with
  | nil => simpa [joinTokens] using ht
  | cons t2 ts' => simp [joinTokens]

/-- Every character of a join is a space or a token character. -/
theorem mem_joinTokens :
    ∀ (ts : List (List Char)) (c : Char), c ∈ joinTokens ts → c = ' ' ∨ ∃ t ∈ ts, c ∈ t := by
  intro ts
  induction ts with
  | nil =>
      intro c hc
      simp [joinTokens] at hc
  | cons t ts' ih =>
      intro c hc
      cases ts' with
      | nil =>
          right
          exact ⟨t, List.mem_cons_self t [], by simpa [joinTokens] using hc⟩
      | cons t2 ts'' =>
          rw [show joinTokens (t :: t2 :: ts'') = t ++ ' ' :: joinTokens (t2 :: ts'') from rfl] at hc
          rcases List.mem_append.mp hc with h | h
          · right
            exact ⟨t, List.mem_cons_self t (t2 :: ts''), h⟩
          · rcases List.mem_cons.mp h with h' | h'
            · left
              exact h'
            · rcases ih c h' with h'' | ⟨t', ht', hc'⟩
              · left
                exact h''
              · right
                exact ⟨t', List.mem_cons_of_mem t ht', hc'⟩

/-- The first character of a join of non-empty tokens satisfying `p`
satisfies `p`. -/
theorem joinTokens_head_prop (p : Char → Prop) :
    ∀ ts : List (List Char), (∀ t ∈ ts, t ≠ [] ∧ ∀ c ∈ t, p c) →
      ∀ c, (joinTokens ts).head? = some c → p c := by
  intro ts
  induction ts with
  | nil =>
      intro _ c hc
      simp [joinTokens] at hc
  | cons t ts' ih =>
      intro hp c hc
      obtain ⟨htne, htp⟩ := hp t (List.mem_cons_self t ts')
      cases ts' with
      | nil =>
          simp only [joinTokens] at hc
          cases t with
          | nil => exact absurd rfl htne
          | cons a t' =>
              simp only [List.head?_cons, Option.some_inj] at hc
              exact hc ▸ htp a (List.mem_cons_self a t')
      | cons t2 ts'' =>
          rw [show joinTokens (t :: t2 :: ts'') = t ++ ' ' :: joinTokens (t2 :: ts'') from rfl] at hc
          cases t with
          | nil => exact absurd rfl htne
          | cons a t' =>
              simp only [List.cons_append, List.head?_cons, Option.some_inj] at hc
              exact hc ▸ htp a (List.mem_cons_self a t')

/-- The last character of a join of non-empty tokens satisfying `p`
satisfies `p`. -/
theorem joinTokens_getLast_prop (p : Char → Prop) :
    ∀ ts : List (List Char), (∀ t ∈ ts, t ≠ [] ∧ ∀ c ∈ t, p c) →
      ∀ c, (joinTokens ts).getLast? = some c → p c := by
  intro ts
  induction ts with
  | nil =>
      intro _ c hc
      simp [joinTokens] at hc
  | cons t ts' ih =>
      intro hp c hc
      obtain ⟨htne, htp⟩ := hp t (List.mem_cons_self t ts')
      cases ts' with
      | nil =>
          simp only [joinTokens] at hc
          exact htp c (List.mem_of_mem_getLast? hc)
      | cons t2 ts'' =>
          rw [show joinTokens (t :: t2 :: ts'') = t ++ ' ' :: joinTokens (t2 :: ts'') from rfl] at hc
          rw [List.getLast?_append] at hc
          have hne2 : joinTokens (t2 :: ts'') ≠ [] :=
            joinTokens_ne_nil t2 ts'' (hp t2 (List.mem_cons_of_mem t (List.mem_cons_self t2 ts''))).1
          cases hj : joinTokens (t2 :: ts'') with
          | nil => exact absurd hj hne2
          | cons d j' =>
              rw [hj] at hc
              have hlast : ((' ' :: d :: j').getLast?).or (t.getLast?) = (d :: j').getLast? := by
                rw [List.getLast?_cons_cons]
                cases hdj : (d :: j').getLast? with
                | none => simp at hdj
                | some e => simp
              rw [hlast] at hc
              refine ih (fun t' ht' => hp t' (List.mem_cons_of_mem t ht')) c ?_
              rw [hj]
              exact hc

/-- A join of non-empty space-free tokens never has two consecutive
spaces. -/
theorem joinTokens_chain' :
    ∀ ts : List (List Char), (∀ t ∈ ts, t ≠ [] ∧ ∀ c ∈ t, c ≠ ' ') →
      List.Chain' (fun a b => ¬(a = ' ' ∧ b = ' ')) (joinTokens ts) := by
  intro ts
  induction ts with
  | nil =>
      intro _
      simp [joinTokens]
  | cons t ts' ih =>
      intro hp
      obtain ⟨htne, htp⟩ := hp t (List.mem_cons_self t ts')
      cases ts' with
      | nil =>
          show List.Chain' _ (joinTokens [t])
          simpa [joinTokens] using chain'_no_space t htp
      | cons t2 ts'' =>
          rw [show joinTokens (t :: t2 :: ts'') = t ++ ' ' :: joinTokens (t2 :: ts'') from rfl]
          rw [List.chain'_append]
          refine ⟨chain'_no_space t htp, ?_, ?_⟩
          · rw [List.chain'_cons']
            refine ⟨?_, ih (fun t' ht' => hp t' (List.mem_cons_of_mem t ht'))⟩
            intro y hy hand
            have hyp : y ≠ ' ' := by
              refine joinTokens_head_prop (fun c => c ≠ ' ') (t2 :: ts'')
                (fun t' ht' => hp t' (List.mem_cons_of_mem t ht')) y hy
            exact hyp hand.2
          · intro x hx y hy hand
            have hxp : x ≠ ' ' :=
              joinTokens_getLast_prop (fun c => c ≠ ' ') [t]
                (by
                  intro t' ht'
                  rw [List.mem_singleton] at ht'
                  subst ht'
                  exact ⟨htne, htp⟩)
                x (by simpa [joinTokens] using hx)
            exact hxp hand.1

/-- `dropWhile` is the identity when the head fails the predicate. -/
theorem dropWhile_eq_self_of_head (l : List Char)
    (h : ∀ c, l.head? = some c → jsWs c = false) : l.dropWhile jsWs = l := by
  cases l with
  | nil => rfl
  | cons a r =>
      rw [List.dropWhile_cons]
      rw [h a rfl]
      simp

/-- `trimJs` is the identity when both ends are non-whitespace. -/
theorem trimJs_eq_self (l : List Char)
    (hh : ∀ c, l.head? = some c → jsWs c = false)
    (hl : ∀ c, l.getLast? = some c → jsWs c = false) : trimJs l = l := by
  unfold trimJs
  rw [dropWhile_eq_self_of_head l hh]
  rw [dropWhile_eq_self_of_head l.reverse
    (fun c hc => hl c (by rwa [List.head?_reverse] at hc))]
  exact List.reverse_reverse l

/-- Splitting a join of non-empty space-free tokens recovers the tokens. -/
theorem splitSp_joinTokens :
    ∀ ts : List (List Char), (∀ t ∈ ts, t ≠ [] ∧ ' ' ∉ t) → ts ≠ [] →
      splitSp (joinTokens ts) = ts := by
  intro ts
  induction ts with
  | nil =>
      intro _ h
      exact absurd rfl h
  | cons t ts' ih =>
      intro hp _
      obtain ⟨htne, htns⟩ := hp t (List.mem_cons_self t ts')
      cases ts' with
      | nil =>
          have hjt : joinTokens [t] = t ++ [] := by simp [joinTokens]
          rw [hjt, splitSp_append t [] [] [] htns rfl]
          simp
      | cons t2 ts'' =>
          rw [show joinTokens (t :: t2 :: ts'') = t ++ ' ' :: joinTokens (t2 :: ts'') from rfl]
          have hrest : splitSp (joinTokens (t2 :: ts'')) = t2 :: ts'' :=
            ih (fun t' ht' => hp t' (List.mem_cons_of_mem t ht')) (by simp)
          have hsp : splitSp (' ' :: joinTokens (t2 :: ts'')) = [] :: t2 :: ts'' := by
            rw [show splitSp (' ' :: joinTokens (t2 :: ts''))
                = [] :: splitSp (joinTokens (t2 :: ts'')) from by simp [splitSp]]
            rw [hrest]
          rw [splitSp_append t (' ' :: joinTokens (t2 :: ts'')) [] (t2 :: ts'') htns hsp]
          simp

end Ingestion

/-- C9: the Validator's normalization is idempotent — re-normalizing the
space-joined cleaned tokens (trim, lowercase, collapse whitespace, drop
stop-words and short tokens) reproduces exactly the same token list. -/
theorem c9_normalization_idempotent (s : String) :
    Ingestion.cleanedTokens (String.mk (Ingestion.joinTokens (Ingestion.cleanedTokens s)))
      = Ingestion.cleanedTokens s := by
  have hprop : ∀ t ∈ Ingestion.cleanedTokens s,
      (2 < t.length ∧ Ingestion.stopWords.contains t = false)
        ∧ ∀ c ∈ t, c ≠ ' ' ∧ Ingestion.jsWs c = false ∧ c.toLower = c := by
    intro t ht
    rw [Ingestion.cleanedTokens, List.mem_filter] at ht
    obtain ⟨htmem, htkeep⟩ := ht
    refine ⟨?_, ?_⟩
    · simpa [Ingestion.keepToken] using htkeep
    · intro c hc
      have hnsp : c ≠ ' ' := fun hceq =>
        Ingestion.splitSp_no_space _ t htmem (hceq ▸ hc)
      have hcmem : c ∈ Ingestion.normalizeChars s :=
        Ingestion.splitSp_subset _ t htmem c hc
      rw [Ingestion.normalizeChars, Ingestion.collapseWs] at hcmem
      have hmem2 := Ingestion.squeeze_subset _ c hcmem
      rw [List.mem_map] at hmem2
      obtain ⟨c1, hc1, hceq⟩ := hmem2
      rw [List.mem_map] at hc1
      obtain ⟨c0, _, hc0eq⟩ := hc1
      by_cases hws : Ingestion.jsWs c1
      · rw [if_pos hws] at hceq
        exact absurd hceq.symm hnsp
      · rw [if_neg hws] at hceq
        subst hceq
        refine ⟨hnsp, by simpa using hws, ?_⟩
        rw [← hc0eq]
        exact Ingestion.toLower_idem c0
  by_cases hts : Ingestion.cleanedTokens s = []
  · rw [hts]
    decide
  · have hptok : ∀ t ∈ Ingestion.cleanedTokens s, t ≠ [] ∧ ∀ c ∈ t, c ≠ ' ' := by
      intro t ht
      refine ⟨?_, fun c hc => ((hprop t ht).2 c hc).1⟩
      have := (hprop t ht).1.1
      intro hnil
      rw [hnil] at this
      simp at this
    have hdata : (String.mk (Ingestion.joinTokens (Ingestion.cleanedTokens s))).data
        = Ingestion.joinTokens (Ingestion.cleanedTokens s) := rfl
    rw [show Ingestion.cleanedTokens (String.mk (Ingestion.joinTokens (Ingestion.cleanedTokens s)))
        = (Ingestion.splitSp (Ingestion.collapseWs
            ((Ingestion.trimJs (Ingestion.joinTokens (Ingestion.cleanedTokens s))).map
              Char.toLower))).filter Ingestion.keepToken from rfl]
    have htrim : Ingestion.trimJs (Ingestion.joinTokens (Ingestion.cleanedTokens s))
        = Ingestion.joinTokens (Ingestion.cleanedTokens s) := by
      refine Ingestion.trimJs_eq_self _ ?_ ?_
      · intro c hc
        have := Ingestion.joinTokens_head_prop (fun c => Ingestion.jsWs c = false)
          (Ingestion.cleanedTokens s)
          (fun t ht => ⟨(hptok t ht).1, fun c hc => ((hprop t ht).2 c hc).2.1⟩) c hc
        exact this
      · intro c hc
        exact Ingestion.joinTokens_getLast_prop (fun c => Ingestion.jsWs c = false)
          (Ingestion.cleanedTokens s)
          (fun t ht => ⟨(hptok t ht).1, fun c hc => ((hprop t ht).2 c hc).2.1⟩) c hc
    rw [htrim]
    have hmap : (Ingestion.joinTokens (Ingestion.cleanedTokens s)).map Char.toLower
        = Ingestion.joinTokens (Ingestion.cleanedTokens s) := by
      rw [List.map_congr_left ?_]
      · exact List.map_id _
      · intro c hcmem
        rcases Ingestion.mem_joinTokens _ c hcmem with h | ⟨t, ht, hc⟩
        · subst h
          decide
        · exact ((hprop t ht).2 c hc).2.2
    rw [hmap]
    have hcollapse : Ingestion.collapseWs (Ingestion.joinTokens (Ingestion.cleanedTokens s))
        = Ingestion.joinTokens (Ingestion.cleanedTokens s) := by
      rw [Ingestion.collapseWs]
      rw [List.map_congr_left (g := id) ?_]
      · rw [List.map_id]
        refine Ingestion.squeeze_eq_self _ ?_
        exact Ingestion.joinTokens_chain' _ hptok
      · intro c hcmem
        rcases Ingestion.mem_joinTokens _ c hcmem with h | ⟨t, ht, hc⟩
        · subst h
          simp [Ingestion.jsWs, Ingestion.jsWsCodes]
        · have := ((hprop t ht).2 c hc).2.1
          simp [this]
    rw [hcollapse]
    rw [Ingestion.splitSp_joinTokens _ (fun t ht =>
      ⟨(hptok t ht).1, fun hsp => ((hprop t ht).2 ' ' hsp).1 rfl⟩) hts]
    refine List.filter_eq_self.mpr ?_
    intro t ht
    have h1 := (hprop t ht).1
    have h2 : t ∉ Ingestion.stopWords := by simpa using h1.2
    simp [Ingestion.keepToken, h1.1, h2]
